import Mathlib

/-!
Verification development for the trade-tracker ledger aggregation engine
(`src/App.js`).

Modelling conventions of the shallow embedding:
* All JavaScript numbers are modelled as rationals.  The inputs the code
  receives are either finite numbers or `null`/missing (the extraction
  schema types every numeric field as NUMBER), so `Number.isFinite`
  checks in the source are identically true in the model and the
  `x || 0` coalescing on number-valued fields is the identity.
* Calendar dates are modelled as naturals.  A natural stands for a
  well-formed `YYYY-MM-DD` string; the order on naturals is the calendar
  order that `new Date(a) - new Date(b)` comparators induce on such
  strings.  An unparseable/missing raw date is modelled as `none` and
  degrades to the supplied `today`, as in `toISODate`.
* Firestore event objects are modelled by `Event`.  Fields a given JS
  object does not carry (e.g. `costAtOpen` on a DAILY_SUMMARY) are
  present in the model with value `0` for numbers and `[]` for the
  ticker, matching how the aggregation code reads them (`x || 0`).
* JS object key iteration (`Object.keys`, `for ... in`) enumerates the
  distinct date keys; the model uses `List.dedup` of the date column.
  The two differ only in enumeration order of the distinct dates, and
  every use either sorts the keys afterwards or folds a commutative
  operation over them.
* `Array.prototype.sort` with comparator `k(b) - k(a)` is modelled by
  `List.insertionSort` with the relation `k b ≤ k a`.
-/

namespace TradeTracker

/-- `type` discriminant of a ledger event (`TRADE_CONFIRMATION` /
`DAILY_SUMMARY` strings in the source). -/
inductive EventType
  | TRADE_CONFIRMATION
  | DAILY_SUMMARY
deriving DecidableEq

/-- A persisted ledger event as the aggregation code consumes it.
The document id plays no role in any aggregation and is omitted. -/
structure Event where
  date : ℕ
  type : EventType
  ticker : List Char
  costAtOpen : ℚ
  creditAtClose : ℚ
  changeValue : ℚ
  changePercentage : ℚ
  endOfDayBalance : ℚ
deriving DecidableEq

/-- `e.type === 'DAILY_SUMMARY'` as a boolean predicate. -/
def isSummaryE (e : Event) : Bool :=
  match e.type with
  | EventType.DAILY_SUMMARY => true
  | EventType.TRADE_CONFIRMATION => false

/-- `e.type === 'TRADE_CONFIRMATION'` as a boolean predicate. -/
def isConfirmationE (e : Event) : Bool :=
  match e.type with
  | EventType.TRADE_CONFIRMATION => true
  | EventType.DAILY_SUMMARY => false

/-- The day bucket of date `d`: the sub-list of events on that date, in
stored order.  This is `eventsByDate[d]` built by the
`trades.reduce((acc, event) => ...)` grouping used in every component. -/
def bucket (events : List Event) (d : ℕ) : List Event :=
  events.filter (fun e => decide (e.date = d))

/-- The distinct dates occurring in the event list
(`Object.keys(eventsByDate)`). -/
def distinctDates (events : List Event) : List ℕ :=
  (events.map (fun e => e.date)).dedup

/-- `Object.keys(eventsByDate).sort((a,b) => new Date(a) - new Date(b))`:
the distinct dates in ascending calendar order. -/
def sortedDatesAsc (events : List Event) : List ℕ :=
  (distinctDates events).insertionSort (· ≤ ·)

/-- `dailyEvents.find(e => e.type === 'DAILY_SUMMARY')` — the first
DAILY_SUMMARY event of a bucket, if any. -/
def findSummary (l : List Event) : Option Event :=
  l.find? isSummaryE

/-! ### Daily P/L resolvers, one per component

Each definition transcribes the daily-resolution code embedded in one
component of `App.js`; they are kept separate so that their agreement is
a theorem, not a modelling decision. -/

/-- `CalendarGrid`, lines 295–308: resolved dollar P/L of a day bucket. -/
def calendarDailyPnl (l : List Event) : ℚ :=
  match findSummary l with
  | some s => s.changeValue
  | none => (l.map (fun e => e.changeValue)).sum

/-- `CalendarGrid`, lines 295–308: resolved percent P/L of a day bucket. -/
def calendarDailyPercent (l : List Event) : ℚ :=
  match findSummary l with
  | some s => s.changePercentage
  | none =>
    let dailyPnl := (l.map (fun e => e.changeValue)).sum
    let totalCost := (l.map (fun e => e.costAtOpen)).sum
    if 0 < totalCost then dailyPnl / totalCost * 100 else 0

/-- `SummaryViewModal`, lines 336–339: the day's total dollar P/L. -/
def summaryModalDailyPnl (l : List Event) : ℚ :=
  match findSummary l with
  | some s => s.changeValue
  | none => (l.map (fun e => e.changeValue)).sum

/-- `SummaryViewModal`, lines 340–346: the day's total percent P/L. -/
def summaryModalDailyPercent (l : List Event) : ℚ :=
  match findSummary l with
  | some s => s.changePercentage
  | none =>
    let dailyTotalCost := (l.map (fun e => e.costAtOpen)).sum
    if 0 < dailyTotalCost then summaryModalDailyPnl l / dailyTotalCost * 100 else 0

/-- `CalculatorPage`, lines 186–197: the day's percent change used by the
what-if projection. -/
def calculatorDailyPercent (l : List Event) : ℚ :=
  match findSummary l with
  | some s => s.changePercentage
  | none =>
    let dailyPnl := (l.map (fun e => e.changeValue)).sum
    let dailyCost := (l.map (fun e => e.costAtOpen)).sum
    if 0 < dailyCost then dailyPnl / dailyCost * 100 else 0

/-- `PnlHistoryModal`, lines 471–475: the day's dollar P/L. -/
def historyDailyPnl (l : List Event) : ℚ :=
  match findSummary l with
  | some s => s.changeValue
  | none => (l.map (fun e => e.changeValue)).sum

/-- `WinRateModal`, lines 541–544: the day's dollar P/L. -/
def winRateDailyPnl (l : List Event) : ℚ :=
  match findSummary l with
  | some s => s.changeValue
  | none => (l.map (fun e => e.changeValue)).sum

/-- `App`'s aggregate-statistics `useMemo`, lines 707–719: the day's
dollar P/L (this copy filters on `event.type === 'TRADE_CONFIRMATION'`
inside the reduce). -/
def appDailyPnl (l : List Event) : ℚ :=
  match findSummary l with
  | some s => s.changeValue
  | none =>
    (l.map (fun e => if isConfirmationE e then e.changeValue else 0)).sum

/-! ### What-if projection (`CalculatorPage`, lines 167–211) -/

/-- The compounding fold of `CalculatorPage`, lines 182–200: walk the
dates ascending, multiplying the running balance by
`1 + dailyPercentChange / 100` each day. -/
def calcFinalBalance (events : List Event) (startingAmount : ℚ) : ℚ :=
  (sortedDatesAsc events).foldl
    (fun runningBalance d =>
      runningBalance * (1 + calculatorDailyPercent (bucket events d) / 100))
    startingAmount

/-- Result triple of the calculator `useMemo`:
`(finalBalance, totalProfit, totalPercentage)`. -/
structure CalcResult where
  finalBalance : ℚ
  totalProfit : ℚ
  totalPercentage : ℚ
deriving DecidableEq

/-- `CalculatorPage`, lines 167–211.  The user-typed starting amount goes
through `parseFloat`; `none` models a non-numeric input (NaN).  A NaN or
negative amount short-circuits to the all-zero result. -/
def calculatorProjection (events : List Event) (startInvestment : Option ℚ) :
    CalcResult :=
  match startInvestment with
  | none => ⟨0, 0, 0⟩
  | some startingAmount =>
    if startingAmount < 0 then ⟨0, 0, 0⟩
    else
      let finalBalanceVal := calcFinalBalance events startingAmount
      let totalProfitVal := finalBalanceVal - startingAmount
      let totalPercentageVal :=
        if 0 < startingAmount then totalProfitVal / startingAmount * 100 else 0
      ⟨finalBalanceVal, totalProfitVal, totalPercentageVal⟩

/-! ### Account history (`PnlHistoryModal`, lines 453–489) -/

/-- One step of the history traversal (the body of the
`sortedDates.forEach` at lines 469–486): update the running balance for
date `d` and append that date's annotated events. -/
def historyStep (events : List Event) (acc : List Event × ℚ) (d : ℕ) :
    List Event × ℚ :=
  let dailyEvents := bucket events d
  let dailyPnl := historyDailyPnl dailyEvents
  let runningBalance :=
    match findSummary dailyEvents with
    | some s => s.endOfDayBalance
    | none => acc.2 + dailyPnl
  (acc.1 ++ dailyEvents.map (fun e => { e with endOfDayBalance := runningBalance }),
   runningBalance)

/-- `PnlHistoryModal`'s `history` memo, lines 454–488: the annotated
event list, most recent date first. -/
def pnlHistory (events : List Event) (startingCapital : ℚ) : List Event :=
  if events = [] then []
  else
    let historyItems :=
      ((sortedDatesAsc events).foldl (historyStep events) ([], startingCapital)).1
    historyItems.insertionSort (fun a b => b.date ≤ a.date)

/-- Reference balance recurrence: fold the history update rule of the
claim over a list of dates.  On a summary date the balance is set to the
summary's `endOfDayBalance`; otherwise the resolved daily P/L is added. -/
def balanceAfterDates (events : List Event) (startingCapital : ℚ)
    (dates : List ℕ) : ℚ :=
  dates.foldl
    (fun runningBalance d =>
      match findSummary (bucket events d) with
      | some s => s.endOfDayBalance
      | none => runningBalance + historyDailyPnl (bucket events d))
    startingCapital

/-- The running balance immediately after all trading dates `≤ d` have
been applied, dates taken in ascending order. -/
def balanceThrough (events : List Event) (startingCapital : ℚ) (d : ℕ) : ℚ :=
  balanceAfterDates events startingCapital
    ((sortedDatesAsc events).takeWhile (fun x => decide (x ≤ d)))

/-! ### Aggregate statistics (`App`'s `useMemo`, lines 696–750) -/

/-- Total realized P/L: the `totalPnl` accumulation loop, lines 704–721. -/
def totalRealizedPnl (events : List Event) : ℚ :=
  (distinctDates events).foldl
    (fun totalPnl d => totalPnl + appDailyPnl (bucket events d)) 0

/-- Lines 723–725:
`trades.filter(summary).sort((a,b) => new Date(b.date) - new Date(a.date))[0]`. -/
def latestSummary (events : List Event) : Option Event :=
  ((events.filter isSummaryE).insertionSort (fun a b => b.date ≤ a.date)).head?

/-- Line 727: the displayed account balance. -/
def balanceFromTrades (events : List Event) (startingCapital : ℚ) : ℚ :=
  match latestSummary events with
  | some s => s.endOfDayBalance
  | none => startingCapital + totalRealizedPnl events

/-- Lines 729–747: the aggregate win rate shown on the dashboard. -/
def appWinRate (events : List Event) : ℚ :=
  let tradingDays := (distinctDates events).length
  let winningDays :=
    ((distinctDates events).filter
      (fun d => decide (0 < appDailyPnl (bucket events d)))).length
  if 0 < tradingDays then (winningDays : ℚ) / (tradingDays : ℚ) * 100 else 0

/-- `WinRateModal`, lines 531–552: per-day P/L list (sorted ascending by
date, as in the source) and the win rate derived from it. -/
def winRateModalPnlList (events : List Event) : List (ℕ × ℚ) :=
  ((distinctDates events).map
      (fun d => (d, winRateDailyPnl (bucket events d)))).insertionSort
    (fun a b => a.1 ≤ b.1)

/-- `WinRateModal`, lines 548–550: `(winning / totalDays) * 100`, guarded. -/
def winRateModalRate (events : List Event) : ℚ :=
  let pnlList := winRateModalPnlList events
  let totalDays := pnlList.length
  let winning := (pnlList.filter (fun p => decide (0 < p.2))).length
  if 0 < totalDays then (winning : ℚ) / (totalDays : ℚ) * 100 else 0

/-! ### Normalization (`normalizeExtractedData`, lines 48–97) -/

/-- `Number.EPSILON` = 2⁻⁵². -/
def jsEpsilon : ℚ := 1 / 2 ^ 52

/-- `two(x) = Math.round((x + Number.EPSILON) * 100) / 100` — round to
two decimals.  `Math.round` rounds halves toward positive infinity,
which is exactly Mathlib's `round` on `ℚ`. -/
def two (x : ℚ) : ℚ := (round ((x + jsEpsilon) * 100) : ℤ) / 100

/-- The numeric coercion `n`: `null`/missing/empty becomes `0`; a number
passes through (formatting characters stripped by the source regex do
not exist in the model, where a raw numeric field is already a rational
or absent). -/
def nOr0 : Option ℚ → ℚ
  | none => 0
  | some q => q

/-- `toISODate`: a well-formed date string (`some d`) is returned
verbatim; anything unparseable (`none`) degrades to today's date. -/
def toISODate (today : ℕ) : Option ℕ → ℕ
  | some d => d
  | none => today

/-- The whitespace class removed by `String.prototype.trim` (ASCII
fragment). -/
def isWSChar (c : Char) : Bool :=
  c = ' ' || c = '\t' || c = '\n' || c = '\r'

/-- The lower-to-upper case table of the ASCII fragment of
`String.prototype.toUpperCase`. -/
def upperPairs : List (Char × Char) :=
  [('a', 'A'), ('b', 'B'), ('c', 'C'), ('d', 'D'), ('e', 'E'),
   ('f', 'F'), ('g', 'G'), ('h', 'H'), ('i', 'I'), ('j', 'J'),
   ('k', 'K'), ('l', 'L'), ('m', 'M'), ('n', 'N'), ('o', 'O'),
   ('p', 'P'), ('q', 'Q'), ('r', 'R'), ('s', 'S'), ('t', 'T'),
   ('u', 'U'), ('v', 'V'), ('w', 'W'), ('x', 'X'), ('y', 'Y'),
   ('z', 'Z')]

/-- `String.prototype.toUpperCase`, ASCII fragment, one character. -/
def jsUpperChar (c : Char) : Char :=
  (upperPairs.lookup c).getD c

/-- `String.prototype.trim` on a character list: drop whitespace from
both ends. -/
def jsTrim (s : List Char) : List Char :=
  ((s.dropWhile isWSChar).reverse.dropWhile isWSChar).reverse

/-- `String(t.ticker || "").trim().toUpperCase()`. -/
def normTicker (s : List Char) : List Char :=
  (jsTrim s).map jsUpperChar

/-- A raw record as returned by the extraction service (the argument `t`
of `normalizeExtractedData`).  Numeric fields are `NUMBER`-or-absent per
the extraction response schema; `imageTypeIsDailySummary` is the test
`t.imageType === 'DAILY_SUMMARY'` (an object without an `imageType` key
— such as a record already produced by normalization — tests false). -/
structure Raw where
  imageTypeIsDailySummary : Bool
  ticker : List Char
  date : Option ℕ
  costAtOpen : Option ℚ
  creditAtClose : Option ℚ
  changeValue : Option ℚ
  changePercentage : Option ℚ
  endOfDayBalance : Option ℚ
deriving DecidableEq

/-- `normalizeExtractedData`, lines 49–97.  In the rational model every
value is finite, so the source's `Number.isFinite` guards are
identically true and are dropped from the transcribed conditions. -/
def normalizeExtractedData (today : ℕ) (t : Raw) : Event :=
  if t.imageTypeIsDailySummary then
    { type := EventType.DAILY_SUMMARY
      ticker := []
      date := toISODate today t.date
      costAtOpen := 0
      creditAtClose := 0
      changeValue := two (nOr0 t.changeValue)
      changePercentage := two (nOr0 t.changePercentage)
      endOfDayBalance := two (nOr0 t.endOfDayBalance) }
  else
    let cost := |nOr0 t.costAtOpen|
    let credit := |nOr0 t.creditAtClose|
    let changeValue := nOr0 t.changeValue
    let changePercentage := nOr0 t.changePercentage
    let cost1 :=
      if cost = 0 ∧ changePercentage ≠ 0 then
        |changeValue / (changePercentage / 100)|
      else cost
    let credit1 :=
      if cost = 0 ∧ changePercentage ≠ 0 then cost1 + changeValue else credit
    let changeValue1 :=
      if changeValue = 0 ∧ 0 < credit1 ∧ 0 < cost1 then two (credit1 - cost1)
      else changeValue
    let changePercentage1 :=
      if changePercentage = 0 then
        (if 0 < cost1 then changeValue1 / cost1 * 100 else 0)
      else changePercentage
    { type := EventType.TRADE_CONFIRMATION
      ticker := normTicker t.ticker
      date := toISODate today t.date
      costAtOpen := two cost1
      creditAtClose := two credit1
      changeValue := two changeValue1
      changePercentage := two changePercentage1
      endOfDayBalance := 0 }

/-- Re-reading a normalized TRADE_CONFIRMATION object as raw extraction
input (what happens if the output of `normalizeExtractedData` is fed
back into it).  The output object carries a `type` key but no
`imageType` key, so the summary test is false, and it has no
`endOfDayBalance` key. -/
def toRaw (e : Event) : Raw :=
  { imageTypeIsDailySummary := false
    ticker := e.ticker
    date := some e.date
    costAtOpen := some e.costAtOpen
    creditAtClose := some e.creditAtClose
    changeValue := some e.changeValue
    changePercentage := some e.changePercentage
    endOfDayBalance := none }

/-! ### Reference walk used to reason about the history fold -/

/-- Structural form of the history traversal: walk the given dates in
order threading the running balance, emitting each date's bucket
annotated with the post-day balance. -/
def annWalk (events : List Event) : List ℕ → ℚ → List Event
  | [], _ => []
  | d :: ds, runningBalance =>
    let dailyEvents := bucket events d
    let rb :=
      match findSummary dailyEvents with
      | some s => s.endOfDayBalance
      | none => runningBalance + historyDailyPnl dailyEvents
    dailyEvents.map (fun e => { e with endOfDayBalance := rb }) ++ annWalk events ds rb

/-! ### Concrete inputs used by witnesses and counterexamples -/

/-- A day bucket holding a confirmation, then two summaries, then
another confirmation (all on date 7). -/
def c1Bucket : List Event :=
  [⟨7, EventType.TRADE_CONFIRMATION, [], 100, 110, 10, 10, 0⟩,
   ⟨7, EventType.DAILY_SUMMARY, [], 0, 0, -7, -2, 350⟩,
   ⟨7, EventType.DAILY_SUMMARY, [], 0, 0, 99, 9, 999⟩,
   ⟨7, EventType.TRADE_CONFIRMATION, [], 50, 45, -5, -10, 0⟩]

/-- The first DAILY_SUMMARY of `c1Bucket`. -/
def c1Summary : Event := ⟨7, EventType.DAILY_SUMMARY, [], 0, 0, -7, -2, 350⟩

/-- Spec scenario B: two confirmations on one date, `costAtOpen` 100 and
50, `changeValue` +10 and −5. -/
def scenarioB : List Event :=
  [⟨7, EventType.TRADE_CONFIRMATION, [], 100, 110, 10, 10, 0⟩,
   ⟨7, EventType.TRADE_CONFIRMATION, [], 50, 45, -5, -10, 0⟩]

/-- Spec scenario D: two dates with daily percentages +10 % and −10 %. -/
def scenarioD : List Event :=
  [⟨1, EventType.DAILY_SUMMARY, [], 0, 0, 100, 10, 1100⟩,
   ⟨2, EventType.DAILY_SUMMARY, [], 0, 0, -110, -10, 990⟩]

/-- Events with two summaries (dates 1 and 3) and one confirmation
(date 2); the latest summary (date 3) reports balance 480. -/
def c7Events : List Event :=
  [⟨3, EventType.DAILY_SUMMARY, [], 0, 0, -20, -4, 480⟩,
   ⟨1, EventType.DAILY_SUMMARY, [], 0, 0, 5, 1, 505⟩,
   ⟨2, EventType.TRADE_CONFIRMATION, [], 100, 110, 10, 10, 0⟩]

/-- Raw extraction input whose trade-confirmation branch derives
`cost = |−50 / (−200/100)| = 25` and then `credit = 25 + (−50) = −25`:
a loss of more than 100 % makes the reconstructed credit negative. -/
def c9Raw : Raw := ⟨false, [], some 1, none, none, some (-50), some (-200), none⟩

/-- A well-behaved raw trade used as witness input. -/
def c9GoodRaw : Raw :=
  ⟨false, [], some 1, some 100, some 110, some 10, some 10, none⟩

/-- Raw extraction input with `costAtOpen = 0.004`: the two-decimal
rounding collapses the stored cost to `0` while `changeValue = 5` and
`changePercentage = 10` survive, so re-normalizing the output fires the
cost-derivation branch and rewrites the record. -/
def c10Raw : Raw := ⟨false, [], some 1, some (1 / 250), some 0, some 5, some 10, none⟩

/-- Raw input whose normalization is a fixed point of normalization. -/
def c10GoodRaw : Raw :=
  ⟨false, [' ', 'a', 'b'], some 1, some 100, some 110, some 10, some 10, none⟩

/-- The normalized form of `c10GoodRaw`. -/
def c10GoodEvent : Event :=
  ⟨1, EventType.TRADE_CONFIRMATION, ['A', 'B'], 100, 110, 10, 10, 0⟩

/-! ## Helper lemmas -/

/-! ### Characters, trimming, upper-casing -/

lemma mem_of_lookup_upper {c u : Char} (h : upperPairs.lookup c = some u) :
    (c, u) ∈ upperPairs := by
  obtain ⟨l₁, l₂, heq, -⟩ := List.lookup_eq_some_iff.mp h
  rw [heq]
  simp

lemma upper_snd_notin : ∀ p ∈ upperPairs, upperPairs.lookup p.2 = none := by decide

lemma upper_not_ws : ∀ p ∈ upperPairs, isWSChar p.1 = false ∧ isWSChar p.2 = false := by
  decide

lemma jsUpperChar_idem (c : Char) : jsUpperChar (jsUpperChar c) = jsUpperChar c := by
  unfold jsUpperChar
  cases h : upperPairs.lookup c with
  | none => simp [h]
  | some u =>
    have hm := mem_of_lookup_upper h
    have h2 := upper_snd_notin (c, u) hm
    simp [h, h2]

lemma isWSChar_jsUpperChar (c : Char) : isWSChar (jsUpperChar c) = isWSChar c := by
  unfold jsUpperChar
  cases h : upperPairs.lookup c with
  | none => simp [h]
  | some u =>
    have hm := mem_of_lookup_upper h
    have h2 := upper_not_ws (c, u) hm
    simp [h, h2.1, h2.2]

lemma head?_dropWhile {α : Type} {p : α → Bool} :
    ∀ {l : List α} {x : α}, (l.dropWhile p).head? = some x → p x = false := by
  intro l
  induction l with
  | nil => intro x h; simp [List.dropWhile] at h
  | cons a t ih =>
    intro x h
    by_cases hp : p a
    · rw [List.dropWhile_cons, if_pos hp] at h
      exact ih h
    · rw [List.dropWhile_cons, if_neg hp] at h
      obtain rfl : a = x := by simpa using h
      simpa using hp

lemma dropWhile_of_head_false {α : Type} {p : α → Bool} {l : List α}
    (h : ∀ x, l.head? = some x → p x = false) : l.dropWhile p = l := by
  cases l with
  | nil => rfl
  | cons a t =>
    have := h a rfl
    simp [List.dropWhile_cons, this]

lemma getLast?_dropWhile {α : Type} {p : α → Bool} :
    ∀ {l : List α}, l.dropWhile p ≠ [] → (l.dropWhile p).getLast? = l.getLast? := by
  intro l
  induction l with
  | nil => intro h; exact absurd rfl h
  | cons a t ih =>
    intro h
    by_cases hp : p a
    · rw [List.dropWhile_cons, if_pos hp] at h ⊢
      rw [ih h]
      have ht : t ≠ [] := by
        intro he
        rw [he] at h
        exact absurd rfl h
      cases t with
      | nil => exact absurd rfl ht
      | cons b t' => simp
    · rw [List.dropWhile_cons, if_neg hp]

lemma jsTrim_head?_false {l : List Char} {x : Char}
    (h : (jsTrim l).head? = some x) : isWSChar x = false := by
  unfold jsTrim at h
  rw [List.head?_reverse] at h
  have hne : (l.dropWhile isWSChar).reverse.dropWhile isWSChar ≠ [] := by
    intro he
    rw [he] at h
    simp at h
  rw [getLast?_dropWhile hne, List.getLast?_reverse] at h
  exact head?_dropWhile h

lemma jsTrim_getLast?_false {l : List Char} {x : Char}
    (h : (jsTrim l).getLast? = some x) : isWSChar x = false := by
  unfold jsTrim at h
  rw [List.getLast?_reverse] at h
  exact head?_dropWhile h

lemma jsTrim_of_clean {l : List Char}
    (h1 : ∀ x, l.head? = some x → isWSChar x = false)
    (h2 : ∀ x, l.getLast? = some x → isWSChar x = false) : jsTrim l = l := by
  unfold jsTrim
  rw [dropWhile_of_head_false h1,
    dropWhile_of_head_false (fun x hx => h2 x (by rwa [List.head?_reverse] at hx))]
  exact List.reverse_reverse l

lemma jsTrim_idem (l : List Char) : jsTrim (jsTrim l) = jsTrim l :=
  jsTrim_of_clean (fun _ h => jsTrim_head?_false h) (fun _ h => jsTrim_getLast?_false h)

lemma normTicker_idem (l : List Char) : normTicker (normTicker l) = normTicker l := by
  unfold normTicker
  have hfix : jsTrim ((jsTrim l).map jsUpperChar) = (jsTrim l).map jsUpperChar := by
    apply jsTrim_of_clean
    · intro x hx
      rw [List.head?_map] at hx
      cases hy : (jsTrim l).head? with
      | none => rw [hy] at hx; simp at hx
      | some y =>
        rw [hy] at hx
        simp only [Option.map_some'] at hx
        obtain rfl : jsUpperChar y = x := by simpa using hx
        rw [isWSChar_jsUpperChar]
        exact jsTrim_head?_false hy
    · intro x hx
      rw [List.getLast?_map] at hx
      cases hy : (jsTrim l).getLast? with
      | none => rw [hy] at hx; simp at hx
      | some y =>
        rw [hy] at hx
        simp only [Option.map_some'] at hx
        obtain rfl : jsUpperChar y = x := by simpa using hx
        rw [isWSChar_jsUpperChar]
        exact jsTrim_getLast?_false hy
  rw [hfix, List.map_map]
  exact List.map_congr_left (fun a _ => jsUpperChar_idem a)

/-! ### The two-decimal rounding -/

lemma round_add_small (m : ℤ) : round ((m : ℚ) + jsEpsilon * 100) = m := by
  rw [add_comm, round_add_int, round_eq]
  norm_num [jsEpsilon]

lemma two_idem (x : ℚ) : two (two x) = two x := by
  unfold two
  have h : (((round ((x + jsEpsilon) * 100) : ℤ) : ℚ) / 100 + jsEpsilon) * 100 =
      ((round ((x + jsEpsilon) * 100) : ℤ) : ℚ) + jsEpsilon * 100 := by
    ring
  rw [h, round_add_small]

lemma two_nonneg {x : ℚ} (hx : 0 ≤ x) : 0 ≤ two x := by
  unfold two
  apply div_nonneg _ (by norm_num)
  have h0 : (0 : ℚ) ≤ (x + jsEpsilon) * 100 := by
    have : (0 : ℚ) < jsEpsilon := by norm_num [jsEpsilon]
    nlinarith
  rw [round_eq]
  have := Int.floor_nonneg.mpr (by linarith : (0 : ℚ) ≤ (x + jsEpsilon) * 100 + 1 / 2)
  exact_mod_cast this

/-! ### Event-type bookkeeping -/

lemma isSummaryE_false_iff (e : Event) :
    isSummaryE e = false ↔ e.type = EventType.TRADE_CONFIRMATION := by
  cases h : e.type <;> simp [isSummaryE, h]

lemma isConfirmationE_true_iff (e : Event) :
    isConfirmationE e = true ↔ e.type = EventType.TRADE_CONFIRMATION := by
  cases h : e.type <;> simp [isConfirmationE, h]

/-- A bucket with no DAILY_SUMMARY consists of TRADE_CONFIRMATION events
only (the type enum has exactly two values). -/
lemma findSummary_none_all {l : List Event} (h : findSummary l = none) :
    ∀ e ∈ l, e.type = EventType.TRADE_CONFIRMATION := by
  intro e he
  have h2 := List.find?_eq_none.mp h e he
  exact (isSummaryE_false_iff e).mp (by simpa using h2)

lemma filter_conf_of_no_summary {l : List Event} (h : findSummary l = none) :
    l.filter isConfirmationE = l :=
  List.filter_eq_self.mpr fun a ha =>
    (isConfirmationE_true_iff a).mpr (findSummary_none_all h a ha)

lemma conf_guarded_sum_of_no_summary {l : List Event} (h : findSummary l = none) :
    (l.map (fun e => if isConfirmationE e then e.changeValue else 0)).sum =
      (l.map (fun e => e.changeValue)).sum := by
  refine congrArg List.sum (List.map_congr_left ?_)
  intro a ha
  have h2 : isConfirmationE a = true :=
    (isConfirmationE_true_iff a).mpr (findSummary_none_all h a ha)
  simp [h2]

/-! ### Folds -/

lemma foldl_mul_eq (g : ℕ → ℚ) :
    ∀ (L : List ℕ) (s : ℚ), L.foldl (fun b d => b * g d) s = s * (L.map g).prod := by
  intro L
  induction L with
  | nil => intro s; simp
  | cons d ds ih =>
    intro s
    rw [List.foldl_cons, ih, List.map_cons, List.prod_cons]
    ring

lemma ratio_bounds (w t : ℕ) (h : w ≤ t) :
    0 ≤ (if 0 < t then (w : ℚ) / (t : ℚ) * 100 else 0) ∧
      (if 0 < t then (w : ℚ) / (t : ℚ) * 100 else 0) ≤ 100 := by
  by_cases ht : 0 < t
  · rw [if_pos ht]
    have htq : (0 : ℚ) < (t : ℚ) := by exact_mod_cast ht
    constructor
    · positivity
    · have h1 : (w : ℚ) / (t : ℚ) ≤ 1 :=
        (div_le_one htq).mpr (by exact_mod_cast h)
      calc (w : ℚ) / (t : ℚ) * 100 ≤ 1 * 100 :=
            mul_le_mul_of_nonneg_right h1 (by norm_num)
        _ = 100 := one_mul 100
  · simp [ht]

/-! ## Claims -/

/-- C1: for every day bucket containing at least one DAILY_SUMMARY
event, every daily P/L resolver in the code returns the first such
summary's `changeValue` and `changePercentage` verbatim, regardless of
any TRADE_CONFIRMATION events also present in the bucket. -/
theorem c1_summary_precedence (l : List Event) (s : Event)
    (h : findSummary l = some s) :
    calendarDailyPnl l = s.changeValue ∧
    calendarDailyPercent l = s.changePercentage ∧
    summaryModalDailyPnl l = s.changeValue ∧
    summaryModalDailyPercent l = s.changePercentage ∧
    appDailyPnl l = s.changeValue ∧
    historyDailyPnl l = s.changeValue ∧
    winRateDailyPnl l = s.changeValue ∧
    calculatorDailyPercent l = s.changePercentage := by
  unfold calendarDailyPnl calendarDailyPercent summaryModalDailyPnl
    summaryModalDailyPercent appDailyPnl historyDailyPnl winRateDailyPnl
    calculatorDailyPercent
  rw [h]
  exact ⟨rfl, rfl, rfl, rfl, rfl, rfl, rfl, rfl⟩

/-- Witness for C1: a bucket holding a confirmation, two summaries and
another confirmation resolves to the first summary's figures. -/
theorem c1_witness :
    findSummary c1Bucket = some c1Summary ∧
    calendarDailyPnl c1Bucket = -7 ∧ calendarDailyPercent c1Bucket = -2 := by
  have h : findSummary c1Bucket = some c1Summary := by
    norm_num [findSummary, isSummaryE, c1Bucket, c1Summary, List.find?]
  refine ⟨h, ?_, ?_⟩
  · rw [(c1_summary_precedence c1Bucket c1Summary h).1]
    norm_num [c1Summary]
  · rw [(c1_summary_precedence c1Bucket c1Summary h).2.1]
    norm_num [c1Summary]

/-- C2: for a bucket with no DAILY_SUMMARY event, the resolved value is
the sum of the confirmations' `changeValue`, and the resolved percentage
is that value over the summed `costAtOpen`, times 100, when the summed
cost is positive, else 0. -/
theorem c2_confirmation_math (l : List Event) (h : findSummary l = none) :
    calendarDailyPnl l = ((l.filter isConfirmationE).map (fun e => e.changeValue)).sum ∧
    calendarDailyPercent l =
      (if 0 < ((l.filter isConfirmationE).map (fun e => e.costAtOpen)).sum then
        ((l.filter isConfirmationE).map (fun e => e.changeValue)).sum /
          ((l.filter isConfirmationE).map (fun e => e.costAtOpen)).sum * 100
      else 0) := by
  rw [filter_conf_of_no_summary h]
  unfold calendarDailyPnl calendarDailyPercent
  rw [h]
  exact ⟨rfl, rfl⟩

/-- Witness for C2, which is also spec scenario B: confirmations with
`costAtOpen` 100 and 50 and `changeValue` +10 and −5 resolve to
`dailyChangeValue` 5 and `dailyChangePercentage` (5/150)·100. -/
theorem c2_witness :
    findSummary scenarioB = none ∧
    calendarDailyPnl scenarioB = 5 ∧
    calendarDailyPercent scenarioB = 5 / 150 * 100 := by
  have h : findSummary scenarioB = none := by
    norm_num [findSummary, isSummaryE, scenarioB, List.find?]
  have h2 := c2_confirmation_math scenarioB h
  refine ⟨h, ?_, ?_⟩
  · rw [h2.1]
    norm_num [scenarioB, isConfirmationE, List.filter]
  · rw [h2.2]
    norm_num [scenarioB, isConfirmationE, List.filter]

/-- C3: on every day bucket, the six independently implemented daily
P/L resolutions (calendar grid, day-summary modal, aggregate
statistics, history view, win-rate view, calculator) agree, so no two
views can disagree on any date's resolved result. -/
theorem c3_resolver_agreement (l : List Event) :
    appDailyPnl l = calendarDailyPnl l ∧
    historyDailyPnl l = calendarDailyPnl l ∧
    winRateDailyPnl l = calendarDailyPnl l ∧
    summaryModalDailyPnl l = calendarDailyPnl l ∧
    summaryModalDailyPercent l = calendarDailyPercent l ∧
    calculatorDailyPercent l = calendarDailyPercent l := by
  refine ⟨?_, rfl, rfl, rfl, ?_, rfl⟩
  · unfold appDailyPnl calendarDailyPnl
    cases h : findSummary l with
    | some s => rfl
    | none => exact conf_guarded_sum_of_no_summary h
  · unfold summaryModalDailyPercent calendarDailyPercent summaryModalDailyPnl
    cases h : findSummary l with
    | some s => rfl
    | none => rfl

/-- C5: the what-if projection multiplies the starting amount by
`1 + p/100` for the resolved percentage `p` of every date in ascending
order, and spec scenario D (+10 % then −10 % from 1000) lands on 990. -/
theorem c5_compounding_projection :
    (∀ (events : List Event) (s : ℚ),
      calcFinalBalance events s =
        s * ((sortedDatesAsc events).map
          (fun d => 1 + calculatorDailyPercent (bucket events d) / 100)).prod) ∧
    calcFinalBalance scenarioD 1000 = 990 := by
  constructor
  · intro events s
    exact foldl_mul_eq _ _ s
  · norm_num [calcFinalBalance, sortedDatesAsc, distinctDates, scenarioD,
      List.insertionSort, List.orderedInsert, calculatorDailyPercent, bucket,
      findSummary, isSummaryE, List.find?, List.dedup, List.pwFilter]

/-- C6: a non-numeric (NaN) or negative starting amount yields the
all-zero projection result, and starting amount exactly 0 also yields
zero `finalBalance`, `totalProfit` and (via the guarded divide)
`totalPercentage`. -/
theorem c6_guarded_projection (events : List Event) :
    calculatorProjection events none = ⟨0, 0, 0⟩ ∧
    (∀ s : ℚ, s < 0 → calculatorProjection events (some s) = ⟨0, 0, 0⟩) ∧
    calculatorProjection events (some 0) = ⟨0, 0, 0⟩ := by
  refine ⟨rfl, ?_, ?_⟩
  · intro s hs
    simp [calculatorProjection, hs]
  · have hfb : calcFinalBalance events 0 = 0 := by
      unfold calcFinalBalance
      rw [foldl_mul_eq (fun d => 1 + calculatorDailyPercent (bucket events d) / 100)]
      ring
    simp [calculatorProjection, hfb]

/-- Witness for C6 at the negative starting amount −3. -/
theorem c6_witness :
    ((-3 : ℚ) < 0) ∧ calculatorProjection scenarioD (some (-3)) = ⟨0, 0, 0⟩ :=
  ⟨by norm_num, (c6_guarded_projection scenarioD).2.1 (-3) (by norm_num)⟩

/-- C8: both win-rate computations (dashboard aggregate and win-rate
modal) always lie in [0, 100], and both are exactly 0 — not NaN, whose
role the guarded divide plays — when there are no trading dates. -/
theorem c8_winrate_bounds :
    (∀ events : List Event,
      0 ≤ appWinRate events ∧ appWinRate events ≤ 100 ∧
      0 ≤ winRateModalRate events ∧ winRateModalRate events ≤ 100) ∧
    appWinRate [] = 0 ∧ winRateModalRate [] = 0 := by
  refine ⟨?_, by simp [appWinRate, distinctDates], by
    simp [winRateModalRate, winRateModalPnlList, distinctDates, List.insertionSort]⟩
  intro events
  exact ⟨(ratio_bounds _ _ (List.length_filter_le _ _)).1,
    (ratio_bounds _ _ (List.length_filter_le _ _)).2,
    (ratio_bounds _ _ (List.length_filter_le _ _)).1,
    (ratio_bounds _ _ (List.length_filter_le _ _)).2⟩

/-! ### The latest summary and the current balance (C7) -/

instance : IsTotal Event (fun a b => b.date ≤ a.date) :=
  ⟨fun a b => le_total b.date a.date⟩

instance : IsTrans Event (fun a b => b.date ≤ a.date) :=
  ⟨fun _ _ _ hab hbc => le_trans hbc hab⟩

lemma isSummaryE_true_iff (e : Event) :
    isSummaryE e = true ↔ e.type = EventType.DAILY_SUMMARY := by
  cases h : e.type <;> simp [isSummaryE, h]

lemma foldl_add_eq (g : ℕ → ℚ) :
    ∀ (L : List ℕ) (s : ℚ), L.foldl (fun acc d => acc + g d) s = s + (L.map g).sum := by
  intro L
  induction L with
  | nil => intro s; simp
  | cons d ds ih =>
    intro s
    rw [List.foldl_cons, ih, List.map_cons, List.sum_cons]
    ring

lemma latestSummary_none {events : List Event}
    (h : ∀ e ∈ events, e.type ≠ EventType.DAILY_SUMMARY) :
    latestSummary events = none := by
  unfold latestSummary
  have hfil : events.filter isSummaryE = [] := by
    rw [List.filter_eq_nil_iff]
    intro e he
    simp [isSummaryE_true_iff, h e he]
  rw [hfil]
  rfl

lemma latestSummary_isSome {events : List Event} {s' : Event}
    (h1 : s' ∈ events) (h2 : s'.type = EventType.DAILY_SUMMARY) :
    ∃ s, latestSummary events = some s := by
  unfold latestSummary
  have hmem : s' ∈ (events.filter isSummaryE).insertionSort (fun a b => b.date ≤ a.date) :=
    (List.perm_insertionSort _ _).mem_iff.mpr
      (List.mem_filter.mpr ⟨h1, (isSummaryE_true_iff s').mpr h2⟩)
  cases hc : (events.filter isSummaryE).insertionSort (fun a b => b.date ≤ a.date) with
  | nil => rw [hc] at hmem; exact absurd hmem (List.not_mem_nil s')
  | cons a t => exact ⟨a, rfl⟩

lemma latestSummary_mem_max {events : List Event} {s : Event}
    (h : latestSummary events = some s) :
    s ∈ events ∧ s.type = EventType.DAILY_SUMMARY ∧
      ∀ e ∈ events, e.type = EventType.DAILY_SUMMARY → e.date ≤ s.date := by
  unfold latestSummary at h
  cases hc : (events.filter isSummaryE).insertionSort (fun a b => b.date ≤ a.date) with
  | nil => rw [hc] at h; exact absurd h (by simp)
  | cons a t =>
    rw [hc] at h
    obtain rfl : a = s := by simpa using h
    have hperm := List.perm_insertionSort (fun x y : Event => y.date ≤ x.date)
      (events.filter isSummaryE)
    rw [hc] at hperm
    have hsmem : a ∈ events.filter isSummaryE := hperm.mem_iff.mp (List.mem_cons_self a t)
    have hsorted := List.sorted_insertionSort (fun x y : Event => y.date ≤ x.date)
      (events.filter isSummaryE)
    rw [hc] at hsorted
    refine ⟨(List.mem_filter.mp hsmem).1,
      (isSummaryE_true_iff a).mp (List.mem_filter.mp hsmem).2, ?_⟩
    intro e hemem hetype
    have hef : e ∈ a :: t := hperm.mem_iff.mpr
      (List.mem_filter.mpr ⟨hemem, (isSummaryE_true_iff e).mpr hetype⟩)
    rcases List.mem_cons.mp hef with rfl | het
    · exact le_refl _
    · exact (List.sorted_cons.mp hsorted).1 e het

/-- C7: if any DAILY_SUMMARY exists, the displayed balance is the
`endOfDayBalance` of a most-recent-date summary; otherwise it is the
starting capital plus the total realized P/L, which itself is the sum
over all distinct dates of that date's resolved daily change value. -/
theorem c7_current_balance (events : List Event) (startingCapital : ℚ) :
    ((∃ e ∈ events, e.type = EventType.DAILY_SUMMARY) →
      ∃ s, s ∈ events ∧ s.type = EventType.DAILY_SUMMARY ∧
        (∀ e ∈ events, e.type = EventType.DAILY_SUMMARY → e.date ≤ s.date) ∧
        balanceFromTrades events startingCapital = s.endOfDayBalance) ∧
    ((∀ e ∈ events, e.type ≠ EventType.DAILY_SUMMARY) →
      balanceFromTrades events startingCapital =
        startingCapital + totalRealizedPnl events) ∧
    totalRealizedPnl events =
      ((distinctDates events).map (fun d => appDailyPnl (bucket events d))).sum := by
  refine ⟨?_, ?_, ?_⟩
  · rintro ⟨s', hs'mem, hs'type⟩
    obtain ⟨s, hs⟩ := latestSummary_isSome hs'mem hs'type
    obtain ⟨hmem, htype, hmax⟩ := latestSummary_mem_max hs
    refine ⟨s, hmem, htype, hmax, ?_⟩
    unfold balanceFromTrades
    rw [hs]
  · intro h
    unfold balanceFromTrades
    rw [latestSummary_none h]
  · unfold totalRealizedPnl
    rw [foldl_add_eq (fun d => appDailyPnl (bucket events d))]
    ring

/-- Witness for C7: with summaries on dates 1 and 3 (balances 505, 480)
and a confirmation on date 2, the balance is the date-3 summary's 480. -/
theorem c7_witness :
    (∃ e ∈ c7Events, e.type = EventType.DAILY_SUMMARY) ∧
    (∃ s, s ∈ c7Events ∧ s.type = EventType.DAILY_SUMMARY ∧
      (∀ e ∈ c7Events, e.type = EventType.DAILY_SUMMARY → e.date ≤ s.date) ∧
      balanceFromTrades c7Events 500 = s.endOfDayBalance) ∧
    balanceFromTrades c7Events 500 = 480 := by
  have hex : ∃ e ∈ c7Events, e.type = EventType.DAILY_SUMMARY :=
    ⟨⟨3, EventType.DAILY_SUMMARY, [], 0, 0, -20, -4, 480⟩, by simp [c7Events], rfl⟩
  refine ⟨hex, (c7_current_balance c7Events 500).1 hex, ?_⟩
  norm_num [balanceFromTrades, latestSummary, isSummaryE, c7Events,
    List.insertionSort, List.orderedInsert, List.filter]

/-! ### The history traversal (C4) -/

lemma sortedDatesAsc_nodup (events : List Event) : (sortedDatesAsc events).Nodup :=
  ((List.perm_insertionSort _ _).nodup_iff).mpr (List.nodup_dedup _)

lemma sortedDatesAsc_sorted (events : List Event) :
    List.Sorted (· ≤ ·) (sortedDatesAsc events) :=
  List.sorted_insertionSort _ _

lemma sortedDatesAsc_sorted_lt (events : List Event) :
    List.Sorted (· < ·) (sortedDatesAsc events) :=
  (sortedDatesAsc_sorted events).lt_of_le (sortedDatesAsc_nodup events)

lemma mem_sortedDatesAsc {events : List Event} {e : Event} (he : e ∈ events) :
    e.date ∈ sortedDatesAsc events := by
  unfold sortedDatesAsc
  rw [(List.perm_insertionSort _ _).mem_iff]
  unfold distinctDates
  rw [List.mem_dedup]
  exact List.mem_map_of_mem _ he

lemma flatMap_congr_mem {α β : Type} {l : List α} {f g : α → List β}
    (h : ∀ a ∈ l, f a = g a) : l.flatMap f = l.flatMap g := by
  induction l with
  | nil => rfl
  | cons a t ih =>
    rw [List.flatMap_cons, List.flatMap_cons, h a (List.mem_cons_self a t),
      ih (fun b hb => h b (List.mem_cons_of_mem a hb))]

/-- The first component of the history fold is the structural walk. -/
lemma historyFold_fst (events : List Event) :
    ∀ (L : List ℕ) (p : List Event × ℚ),
      (L.foldl (historyStep events) p).1 = p.1 ++ annWalk events L p.2 := by
  intro L
  induction L with
  | nil => intro p; simp [annWalk]
  | cons d ds ih =>
    intro p
    rw [List.foldl_cons, ih]
    simp only [historyStep, annWalk]
    rw [List.append_assoc]

/-- The dates each event's annotation accounts for: the balance written
on date `d`'s bucket is the fold of the update rule over the ascending
dates up to and including `d`. -/
lemma annWalk_eq_flatMap (events : List Event) :
    ∀ (L : List ℕ), List.Sorted (· < ·) L → ∀ (rb : ℚ),
      annWalk events L rb =
        L.flatMap (fun d => (bucket events d).map
          (fun e => { e with endOfDayBalance :=
            balanceAfterDates events rb (L.takeWhile (fun x => decide (x ≤ d))) })) := by
  intro L
  induction L with
  | nil => intro _ rb; rfl
  | cons d ds ih =>
    intro hs rb
    obtain ⟨hgt, hds⟩ := List.sorted_cons.mp hs
    have htw0 : ds.takeWhile (fun x => decide (x ≤ d)) = [] := by
      cases hd : ds with
      | nil => rfl
      | cons b t =>
        rw [List.takeWhile_cons]
        have hb : ¬ b ≤ d := not_le.mpr (hgt b (by rw [hd]; exact List.mem_cons_self b t))
        simp [hb]
    have htw : (d :: ds).takeWhile (fun x => decide (x ≤ d)) = [d] := by
      rw [List.takeWhile_cons]
      simp [htw0]
    rw [List.flatMap_cons, htw]
    simp only [annWalk]
    rw [ih hds]
    congr 1
    apply flatMap_congr_mem
    intro x hx
    have hdx : d ≤ x := le_of_lt (hgt x hx)
    have htwx : (d :: ds).takeWhile (fun y => decide (y ≤ x)) =
        d :: ds.takeWhile (fun y => decide (y ≤ x)) := by
      rw [List.takeWhile_cons]
      simp [hdx]
    rw [htwx]
    rfl

/-- The buckets of the distinct dates partition the event list. -/
lemma flatMap_bucket_perm :
    ∀ (L : List ℕ) (evs : List Event), L.Nodup → (∀ e ∈ evs, e.date ∈ L) →
      (L.flatMap (fun d => evs.filter (fun e => decide (e.date = d)))).Perm evs := by
  intro L
  induction L with
  | nil =>
    intro evs _ hcov
    have hnil : evs = [] :=
      List.eq_nil_iff_forall_not_mem.mpr
        (fun e he => absurd (hcov e he) (List.not_mem_nil _))
    simp [hnil]
  | cons d ds ih =>
    intro evs hnd hcov
    rw [List.flatMap_cons]
    have hsplit := List.filter_append_perm (fun e => decide (e.date = d)) evs
    have htail : ds.flatMap (fun d' => evs.filter (fun e => decide (e.date = d'))) =
        ds.flatMap (fun d' =>
          (evs.filter (fun e => !decide (e.date = d))).filter
            (fun e => decide (e.date = d'))) := by
      apply flatMap_congr_mem
      intro d' hd'
      have hne : d' ≠ d := by
        intro he
        rw [he] at hd'
        exact (List.nodup_cons.mp hnd).1 hd'
      rw [List.filter_filter]
      apply List.filter_congr
      intro e _
      by_cases he : e.date = d'
      · simp [he, hne]
      · simp [he]
    rw [htail]
    have hihm := ih (evs.filter (fun e => !decide (e.date = d)))
      (List.nodup_cons.mp hnd).2
      (by
        intro e he
        obtain ⟨hee, hed⟩ := List.mem_filter.mp he
        have hd := hcov e hee
        rcases List.mem_cons.mp hd with h | h
        · rw [h] at hed; simp at hed
        · exact h)
    exact (hihm.append_left _).trans hsplit

lemma pnlHistory_items (events : List Event) (startingCapital : ℚ) :
    ((sortedDatesAsc events).foldl (historyStep events) ([], startingCapital)).1 =
      annWalk events (sortedDatesAsc events) startingCapital := by
  rw [historyFold_fst]
  rfl

/-- C4: the history view's annotated list is sorted descending by date;
it is a permutation of the input events, each annotated with the
balance reached after its date, where the balance results from folding
over the dates in ascending calendar order from the starting capital;
and that fold sets the balance to the summary's `endOfDayBalance` on a
summary date and adds the resolved daily change value otherwise. -/
theorem c4_history_annotation (events : List Event) (startingCapital : ℚ) :
    List.Sorted (fun a b : Event => b.date ≤ a.date) (pnlHistory events startingCapital) ∧
    (pnlHistory events startingCapital).Perm
      (events.map (fun e =>
        { e with endOfDayBalance := balanceThrough events startingCapital e.date })) ∧
    (∀ (prior : List ℕ) (d : ℕ),
      balanceAfterDates events startingCapital (prior ++ [d]) =
        match findSummary (bucket events d) with
        | some s => s.endOfDayBalance
        | none => balanceAfterDates events startingCapital prior +
            historyDailyPnl (bucket events d)) := by
  refine ⟨?_, ?_, ?_⟩
  · by_cases h : events = []
    · simp [pnlHistory, h]
    · simp only [pnlHistory, if_neg h]
      exact List.sorted_insertionSort _ _
  · by_cases h : events = []
    · simp [pnlHistory, h]
    · simp only [pnlHistory, if_neg h]
      refine (List.perm_insertionSort _ _).trans ?_
      rw [pnlHistory_items,
        annWalk_eq_flatMap events _ (sortedDatesAsc_sorted_lt events)]
      have hcong : (sortedDatesAsc events).flatMap (fun d => (bucket events d).map
            (fun e => { e with endOfDayBalance :=
              balanceAfterDates events startingCapital ((sortedDatesAsc events).takeWhile (fun x => decide (x ≤ d))) })) =
          (sortedDatesAsc events).flatMap (fun d => (bucket events d).map
            (fun e => { e with endOfDayBalance := balanceThrough events startingCapital e.date })) := by
        apply flatMap_congr_mem
        intro d hd
        apply List.map_congr_left
        intro e he
        have hed : e.date = d := of_decide_eq_true (List.mem_filter.mp he).2
        rw [hed]
        rfl
      rw [hcong, ← List.map_flatMap]
      exact (flatMap_bucket_perm _ _ (sortedDatesAsc_nodup events)
        (fun e he => mem_sortedDatesAsc he)).map _
  · intro prior d
    unfold balanceAfterDates
    rw [List.foldl_append]
    rfl

/-! ### Normalization invariants (C9, C10) -/

lemma two_zero : two 0 = 0 := by
  unfold two
  norm_num [round_eq, jsEpsilon]

/-- Every numeric field of a normalized record is a fixed point of the
two-decimal rounding, its ticker is a fixed point of trimming and
upper-casing, and a trade-confirmation record carries
`endOfDayBalance = 0`. -/
lemma normalize_fields_fixed (today : ℕ) (t : Raw) :
    two (normalizeExtractedData today t).costAtOpen = (normalizeExtractedData today t).costAtOpen ∧
    two (normalizeExtractedData today t).creditAtClose = (normalizeExtractedData today t).creditAtClose ∧
    two (normalizeExtractedData today t).changeValue = (normalizeExtractedData today t).changeValue ∧
    two (normalizeExtractedData today t).changePercentage = (normalizeExtractedData today t).changePercentage ∧
    normTicker (normalizeExtractedData today t).ticker = (normalizeExtractedData today t).ticker ∧
    ((normalizeExtractedData today t).type = EventType.TRADE_CONFIRMATION →
      (normalizeExtractedData today t).endOfDayBalance = 0) := by
  by_cases himg : t.imageTypeIsDailySummary
  · simp [normalizeExtractedData, himg, two_idem, two_zero, normTicker, jsTrim]
  · simp [normalizeExtractedData, himg, two_idem, normTicker_idem]

/-- C9 amended: `costAtOpen` is always non-negative; `creditAtClose` is
non-negative whenever the raw `changeValue` is non-negative, or the raw
`changePercentage` does not exceed 100 in magnitude, or the raw
`costAtOpen` is nonzero (so the credit-reconstruction branch that can go
negative does not fire). -/
theorem c9_abs_values (today : ℕ) (t : Raw) :
    0 ≤ (normalizeExtractedData today t).costAtOpen ∧
    (0 ≤ nOr0 t.changeValue ∨ |nOr0 t.changePercentage| ≤ 100 ∨ nOr0 t.costAtOpen ≠ 0 →
      0 ≤ (normalizeExtractedData today t).creditAtClose) := by
  by_cases himg : t.imageTypeIsDailySummary
  · constructor <;> simp [normalizeExtractedData, himg]
  · by_cases hc : |nOr0 t.costAtOpen| = 0 ∧ nOr0 t.changePercentage ≠ 0
    · constructor
      · simp only [normalizeExtractedData, himg, Bool.false_eq_true, if_false, if_pos hc]
        exact two_nonneg (abs_nonneg _)
      · intro h
        simp only [normalizeExtractedData, himg, Bool.false_eq_true, if_false, if_pos hc]
        apply two_nonneg
        rcases h with hcv | hpb | hcz
        · have := abs_nonneg (nOr0 t.changeValue / (nOr0 t.changePercentage / 100))
          linarith
        · have hp0 : (0 : ℚ) < |nOr0 t.changePercentage| := abs_pos.mpr hc.2
          have hdiv : |nOr0 t.changeValue / (nOr0 t.changePercentage / 100)| =
              |nOr0 t.changeValue| / (|nOr0 t.changePercentage| / 100) := by
            rw [abs_div, abs_div]
            norm_num
          rw [hdiv]
          have hfrac : (0 : ℚ) < |nOr0 t.changePercentage| / 100 := by linarith
          have hfrac1 : |nOr0 t.changePercentage| / 100 ≤ 1 := by linarith
          have hge : |nOr0 t.changeValue| ≤
              |nOr0 t.changeValue| / (|nOr0 t.changePercentage| / 100) := by
            rw [le_div_iff₀ hfrac]
            exact mul_le_of_le_one_right (abs_nonneg _) hfrac1
          have := neg_abs_le (nOr0 t.changeValue)
          linarith
        · exact absurd (abs_eq_zero.mp hc.1) hcz
    · constructor
      · simp only [normalizeExtractedData, himg, Bool.false_eq_true, if_false, if_neg hc]
        exact two_nonneg (abs_nonneg _)
      · intro h
        simp only [normalizeExtractedData, himg, Bool.false_eq_true, if_false, if_neg hc]
        exact two_nonneg (abs_nonneg _)

/-- Counterexample to C9 as stated: raw input with `changeValue = −50`
and `changePercentage = −200` (cost and credit absent) normalizes to a
TRADE_CONFIRMATION with `creditAtClose = −25 < 0`, because the
reconstruction `credit = cost + changeValue` is not wrapped in an
absolute value. -/
theorem c9_counterexample :
    (normalizeExtractedData 0 c9Raw).type = EventType.TRADE_CONFIRMATION ∧
    (normalizeExtractedData 0 c9Raw).costAtOpen = 25 ∧
    (normalizeExtractedData 0 c9Raw).creditAtClose = -25 ∧
    (normalizeExtractedData 0 c9Raw).creditAtClose < 0 := by
  refine ⟨rfl, ?_, ?_, ?_⟩ <;>
    norm_num [normalizeExtractedData, c9Raw, nOr0, two, round_eq, jsEpsilon]

/-- Witness for C9 (amended) at a well-behaved raw trade. -/
theorem c9_witness :
    (0 ≤ nOr0 c9GoodRaw.changeValue ∨ |nOr0 c9GoodRaw.changePercentage| ≤ 100 ∨
      nOr0 c9GoodRaw.costAtOpen ≠ 0) ∧
    0 ≤ (normalizeExtractedData 0 c9GoodRaw).costAtOpen ∧
    0 ≤ (normalizeExtractedData 0 c9GoodRaw).creditAtClose := by
  have h : 0 ≤ nOr0 c9GoodRaw.changeValue ∨ |nOr0 c9GoodRaw.changePercentage| ≤ 100 ∨
      nOr0 c9GoodRaw.costAtOpen ≠ 0 := Or.inl (by norm_num [c9GoodRaw, nOr0])
  exact ⟨h, (c9_abs_values 0 c9GoodRaw).1, (c9_abs_values 0 c9GoodRaw).2 h⟩

/-- C10 amended: re-normalizing a normalized trade-confirmation record
reproduces it exactly, provided the record's stored `costAtOpen` is
strictly positive, its `creditAtClose` is non-negative and its
`changeValue` and `changePercentage` are nonzero (so none of the
re-derivation branches fires on the second pass). -/
theorem c10_idem_amended (today : ℕ) (t : Raw) (r : Event)
    (hr : normalizeExtractedData today t = r)
    (htype : r.type = EventType.TRADE_CONFIRMATION)
    (hcost : 0 < r.costAtOpen) (hcredit : 0 ≤ r.creditAtClose)
    (hcv : r.changeValue ≠ 0) (hpct : r.changePercentage ≠ 0) :
    normalizeExtractedData today (toRaw r) = r := by
  have hfix := normalize_fields_fixed today t
  rw [hr] at hfix
  obtain ⟨hfc, hfk, hfv, hfp, hft, hfe⟩ := hfix
  have heob : r.endOfDayBalance = 0 := hfe htype
  have habs_c : |r.costAtOpen| = r.costAtOpen := abs_of_nonneg (le_of_lt hcost)
  have habs_k : |r.creditAtClose| = r.creditAtClose := abs_of_nonneg hcredit
  have hcne : ¬ (r.costAtOpen = 0 ∧ r.changePercentage ≠ 0) := by
    rintro ⟨h0, -⟩
    exact absurd h0 (ne_of_gt hcost)
  have hcvne : ¬ (r.changeValue = 0 ∧ 0 < r.creditAtClose ∧ 0 < r.costAtOpen) := by
    rintro ⟨h0, -⟩
    exact absurd h0 hcv
  simp only [normalizeExtractedData, toRaw, Bool.false_eq_true, if_false, nOr0,
    toISODate, habs_c, habs_k, if_neg hcne, if_neg hcvne, if_neg hpct]
  rw [hfc, hfk, hfv, hfp, hft]
  conv_rhs => rw [show r = (⟨r.date, r.type, r.ticker, r.costAtOpen, r.creditAtClose, r.changeValue, r.changePercentage, r.endOfDayBalance⟩ : Event) from rfl]
  rw [htype, heob]

/-- Counterexample to C10 as stated: raw `costAtOpen = 0.004` rounds to
a stored cost of 0 while `changeValue = 5` and `changePercentage = 10`
survive, so feeding the output back through normalization fires the
cost-derivation branch and rewrites the record (cost becomes 50 and
credit 55). -/
theorem c10_counterexample :
    (normalizeExtractedData 0 c10Raw).type = EventType.TRADE_CONFIRMATION ∧
    normalizeExtractedData 0 (toRaw (normalizeExtractedData 0 c10Raw)) ≠
      normalizeExtractedData 0 c10Raw := by
  have h1 : normalizeExtractedData 0 c10Raw =
      ⟨1, EventType.TRADE_CONFIRMATION, [], 0, 0, 5, 10, 0⟩ := by
    norm_num [normalizeExtractedData, c10Raw, nOr0, two, round_eq, jsEpsilon, toISODate,
      normTicker, jsTrim, Event.mk.injEq, abs_of_pos, abs_of_nonneg]
  have h2 : normalizeExtractedData 0
        (toRaw (⟨1, EventType.TRADE_CONFIRMATION, [], 0, 0, 5, 10, 0⟩ : Event)) =
      ⟨1, EventType.TRADE_CONFIRMATION, [], 50, 55, 5, 10, 0⟩ := by
    norm_num [normalizeExtractedData, toRaw, nOr0, two, round_eq, jsEpsilon, toISODate,
      normTicker, jsTrim, Event.mk.injEq, abs_of_pos, abs_of_nonneg]
  constructor
  · rw [h1]
  · rw [h1, h2]
    norm_num [Event.mk.injEq]

/-- Witness for C10 (amended): a record with positive cost, non-negative
credit and nonzero change figures round-trips through normalization
unchanged, ticker trimming and upper-casing included. -/
theorem c10_witness :
    normalizeExtractedData 0 c10GoodRaw = c10GoodEvent ∧
    c10GoodEvent.type = EventType.TRADE_CONFIRMATION ∧
    0 < c10GoodEvent.costAtOpen ∧ 0 ≤ c10GoodEvent.creditAtClose ∧
    c10GoodEvent.changeValue ≠ 0 ∧ c10GoodEvent.changePercentage ≠ 0 ∧
    normalizeExtractedData 0 (toRaw c10GoodEvent) = c10GoodEvent := by
  have htick : normTicker [' ', 'a', 'b'] = ['A', 'B'] := by decide
  have hr : normalizeExtractedData 0 c10GoodRaw = c10GoodEvent := by
    norm_num [normalizeExtractedData, c10GoodRaw, c10GoodEvent, nOr0, two, round_eq,
      jsEpsilon, toISODate, htick, Event.mk.injEq, abs_of_pos, abs_of_nonneg]
  refine ⟨hr, rfl, by norm_num [c10GoodEvent], by norm_num [c10GoodEvent],
    by norm_num [c10GoodEvent], by norm_num [c10GoodEvent], ?_⟩
  exact c10_idem_amended 0 c10GoodRaw c10GoodEvent hr rfl
    (by norm_num [c10GoodEvent]) (by norm_num [c10GoodEvent])
    (by norm_num [c10GoodEvent]) (by norm_num [c10GoodEvent])

end TradeTracker
